import Mathlib

/-!
Verification development for the GameTranslate streaming-pipeline core.

The definitions below are a shallow embedding of the Python sources:
  * `difflib.SequenceMatcher` (stdlib, as used with `isjunk = None`) — the
    similarity metric shared by the stabilizer, the deduplicator and the
    dispatch gate;
  * `src/ai_engine.py` — `TextStabilizer`, `LatestQueue`, `AIEngine.translate`,
    the change gate of `AIEngine._capture_loop`;
  * `src/audio.py` — `AudioPlayer.speak`;
  * `start.py` — the dispatch block of `MainApp.run_engine`.

Machine reals: Python computes similarity scores with IEEE doubles
`2.0 * matches / (la + lb)`; we model the arithmetic exactly over `ℚ` and the
float literals `0.85` / `0.95` as `17/20` / `19/20`.  External collaborators
(OCR, CT2 translator, Silero TTS, `sounddevice`, `random.choice`) are opaque
parameters, exactly as the spec treats them.
-/

namespace GameTranslate

/-! ### difflib.SequenceMatcher(None, a, b).ratio()

`b2j` indexes the second sequence; with the default `autojunk = True`,
elements of `b` occurring in more than 1% of a `b` of length ≥ 200 are
dropped from the index ("popular" elements).  `isjunk` is `None` at every
call site in the repository, so the junk set is empty. -/

/-- Positions of `c` in `b`, in ascending order, with difflib's autojunk
rule: for `b` of length ≥ 200, an element occurring more than
`len b / 100 + 1` times is dropped from the index. -/
def b2j (b : List Char) (c : Char) : List Nat :=
  let idxs := (List.range b.length).filter fun j => b.getD j ' ' = c
  if 200 ≤ b.length ∧ b.length / 100 + 1 < idxs.length then [] else idxs

/-- Best match found so far: start in `a`, start in `b`, size. -/
structure FLM where
  besti : Nat
  bestj : Nat
  bestsize : Nat
deriving DecidableEq, Repr

/-- Lookup in the previous row's run-length map, defaulting to `0`. -/
def jlook (m : List (Nat × Nat)) (j : Nat) : Nat :=
  match m.find? (fun p => p.1 == j) with
  | some p => p.2
  | none => 0

/-- One row of the `find_longest_match` dynamic program: process the
occurrence list `js` of `a[i]` in `b`, producing the new run-length map and
updating the best block.  Python's `continue`/`break` on `j < blo` /
`j ≥ bhi` are a filter here because `js` is ascending.  `j2len.get (j-1, 0)`
with `j = 0` looks up key `-1` in Python, hence the `j = 0` special case. -/
def flmRow (blo bhi : Nat) (js : List Nat) (j2len : List (Nat × Nat))
    (i : Nat) (st : FLM) : List (Nat × Nat) × FLM :=
  js.foldl
    (fun acc j =>
      if j < blo ∨ bhi ≤ j then acc
      else
        let k := (if j = 0 then 0 else jlook j2len (j - 1)) + 1
        let st' := if acc.2.bestsize < k then FLM.mk (i + 1 - k) (j + 1 - k) k else acc.2
        ((j, k) :: acc.1, st'))
    ([], st)

/-- The core dynamic program of `find_longest_match` over rows
`i ∈ [alo, ahi)`, starting from `besti, bestj, bestsize = alo, blo, 0`. -/
def flmCore (a : List Char) (bj : Char → List Nat) (alo ahi blo bhi : Nat) : FLM :=
  ((List.range' alo (ahi - alo)).foldl
    (fun acc i => flmRow blo bhi (bj (a.getD i ' ')) acc.1 i acc.2)
    (([] : List (Nat × Nat)), FLM.mk alo blo 0)).2

/-- Backward extension of the best block over equal adjacent elements
(difflib's first `while` loop; the junk set is empty for `isjunk = None`,
so the junk-extension loops never fire).  The loop decrements `besti`
while `alo < besti`, so `fuel = besti` covers every iteration. -/
def extendBack (a b : List Char) (alo blo : Nat) :
    Nat → Nat → Nat → Nat → FLM
  | 0, besti, bestj, bestsize => FLM.mk besti bestj bestsize
  | fuel + 1, besti, bestj, bestsize =>
    if alo < besti ∧ blo < bestj ∧
        a.getD (besti - 1) ' ' = b.getD (bestj - 1) ' ' then
      extendBack a b alo blo fuel (besti - 1) (bestj - 1) (bestsize + 1)
    else FLM.mk besti bestj bestsize

/-- Forward extension of the best block over equal adjacent elements
(difflib's second `while` loop).  The loop increments `bestsize` while
`besti + bestsize < ahi`, so `fuel = ahi` covers every iteration. -/
def extendFwd (a b : List Char) (ahi bhi besti bestj : Nat) :
    Nat → Nat → Nat
  | 0, bestsize => bestsize
  | fuel + 1, bestsize =>
    if besti + bestsize < ahi ∧ bestj + bestsize < bhi ∧
        a.getD (besti + bestsize) ' ' = b.getD (bestj + bestsize) ' ' then
      extendFwd a b ahi bhi besti bestj fuel (bestsize + 1)
    else bestsize

/-- Model of `find_longest_match(alo, ahi, blo, bhi)` for `isjunk = None`. -/
def findLongestMatch (a b : List Char) (bj : Char → List Nat)
    (alo ahi blo bhi : Nat) : FLM :=
  let st := flmCore a bj alo ahi blo bhi
  let st' := extendBack a b alo blo st.besti st.besti st.bestj st.bestsize
  FLM.mk st'.besti st'.bestj
    (extendFwd a b ahi bhi st'.besti st'.bestj ahi st'.bestsize)

/-- Total size of all matching blocks (the `matches` of `ratio()`),
following the recursion of `get_matching_blocks`.  The `fuel` argument
makes the recursion structural; each recursive call strictly shrinks
`(ahi - alo) + (bhi - blo)`, so `a.length + b.length + 1` units suffice. -/
def matchesAux (a b : List Char) (bj : Char → List Nat) :
    Nat → Nat → Nat → Nat → Nat → Nat
  | 0, _, _, _, _ => 0
  | fuel + 1, alo, ahi, blo, bhi =>
    let r := findLongestMatch a b bj alo ahi blo bhi
    if r.bestsize = 0 then 0
    else
      r.bestsize +
        (if alo < r.besti ∧ blo < r.bestj then
          matchesAux a b bj fuel alo r.besti blo r.bestj else 0) +
        (if r.besti + r.bestsize < ahi ∧ r.bestj + r.bestsize < bhi then
          matchesAux a b bj fuel (r.besti + r.bestsize) ahi (r.bestj + r.bestsize) bhi
        else 0)

/-- The `matches` count of `SequenceMatcher(None, a, b)`. -/
def smMatches (a b : List Char) : Nat :=
  matchesAux a b (b2j b) (a.length + b.length + 1) 0 a.length 0 b.length

/-- Model of `SequenceMatcher(None, a, b).ratio()` over `ℚ`:
`2 * matches / (len a + len b)`, and `1` when both strings are empty. -/
def simScore (a b : String) : ℚ :=
  let t := a.data.length + b.data.length
  if t = 0 then 1 else (2 * smMatches a.data b.data : ℚ) / t

/-! ### Python string helpers -/

/-- ASCII whitespace stripped by `str.strip()` (Python also strips some
further Unicode whitespace; none of it occurs in the claims). -/
def isPySpace (c : Char) : Bool :=
  c = ' ' ∨ c = '\t' ∨ c = '\n' ∨ c = '\r' ∨ c.toNat = 11 ∨ c.toNat = 12

/-- Model of `str.strip()`: drop leading and trailing whitespace. -/
def pyStrip (s : String) : String :=
  String.mk (((s.data.dropWhile isPySpace).reverse.dropWhile isPySpace).reverse)

/-- Model of `str.lower()` on the alphabets this program handles: ASCII `A`–`Z` and
Cyrillic `А`–`Я` (U+0410–U+042F) map down by 32 code points, `Ё` (U+0401)
maps to `ё` (U+0451); everything else is unchanged. -/
def pyLowerChar (c : Char) : Char :=
  if 'A' ≤ c ∧ c ≤ 'Z' then Char.ofNat (c.toNat + 32)
  else if 0x410 ≤ c.toNat ∧ c.toNat ≤ 0x42F then Char.ofNat (c.toNat + 32)
  else if c.toNat = 0x401 then Char.ofNat 0x451
  else c

/-- Model of `str.lower()` applied characterwise. -/
def pyLower (s : String) : String := String.mk (s.data.map pyLowerChar)

/-! ### TextStabilizer (`src/ai_engine.py`, lines 32–52)

`self.queue` is a `deque(maxlen = history)`, oldest first; `append` evicts
the oldest entry when full. -/

structure TextStabilizer where
  queue : List String
  maxlen : Nat
  threshold : ℚ
deriving DecidableEq, Repr

/-- Model of `deque(maxlen).append x`: append, evicting from the left when over
capacity. -/
def dequeAppend (maxlen : Nat) (q : List String) (x : String) : List String :=
  let q' := q ++ [x]
  if maxlen < q'.length then q'.drop (q'.length - maxlen) else q'

/-- Model of `TextStabilizer.push`.  `if not clean_text or len(clean_text) < 2` is
equivalent to `len < 2` since the empty string has length 0.  The final
loop breaks as soon as one window entry scores below the threshold, i.e.
the phrase is stable iff every entry scores at least the threshold;
`self.queue[-1]` is the window's most recent entry.  (For `maxlen = 0`
Python would raise `IndexError` at `queue[-1]`; the configured window size
is 3, and the `maxlen ≥ 1` cases below are exact.) -/
def tsPush (st : TextStabilizer) (text : String) : TextStabilizer × Option String :=
  let clean := pyStrip text
  if clean.length < 2 then (st, none)
  else
    let q := dequeAppend st.maxlen st.queue clean
    let st' : TextStabilizer := ⟨q, st.maxlen, st.threshold⟩
    if q.length < st.maxlen then (st', none)
    else
      match q.getLast? with
      | none => (st', none)
      | some last =>
        if q.all (fun item => st.threshold ≤ simScore last item) then (st', some last)
        else (st', none)

/-- The phrases emitted by one push result. -/
def emitted : Option String → List String
  | some s => [s]
  | none => []

/-- Feed a sequence of texts through the stabilizer, collecting the emitted
stable phrases in order. -/
def tsPushMany (st : TextStabilizer) (texts : List String) :
    TextStabilizer × List String :=
  texts.foldl (fun acc t => ((tsPush acc.1 t).1, acc.2 ++ emitted (tsPush acc.1 t).2))
    (st, [])

/-! ### AIEngine.translate (`src/ai_engine.py`, lines 236–255)

The CT2 translator is an opaque external collaborator, passed in as a
function `tr`; `none` models both `CT2Translator.translate` returning
`None` and an empty decode.  `translatorCalled` records whether control
reached the `self.translator.translate(cleaned)` call. -/

structure TranslationResult where
  name : String
  gender : String
  text : String
deriving DecidableEq, Repr

structure TranslateOut where
  result : Option TranslationResult
  last_hash : String
  translatorCalled : Bool
deriving DecidableEq, Repr

/-- The Russian-letter validator of `AIEngine.translate`:
`any("а" <= ch.lower() <= "я" or ch == "ё" for ch in text)`.
(`а` = U+0430, `я` = U+044F; note `Ё` fails this test since `ё` = U+0451
lies outside the range and `ch == "ё"` checks the original character.) -/
def hasRussianLetter (s : String) : Bool :=
  s.data.any fun ch =>
    (decide (0x430 ≤ (pyLowerChar ch).toNat) &&
      decide ((pyLowerChar ch).toNat ≤ 0x44F)) || ch == 'ё'

/-- Model of `AIEngine.translate(text)` with dedup state `last_hash`:
strip, reject short input, suppress near-duplicates of `last_hash`
(strictly above 0.95), call the translator, reject empty results and
results without a Russian letter, and only then store `norm` as the new
`last_hash`. -/
def aiTranslate (tr : String → Option TranslationResult) (last_hash : String)
    (text : String) : TranslateOut :=
  let cleaned := pyStrip text
  if cleaned.length < 2 then ⟨none, last_hash, false⟩
  else
    let norm := pyLower cleaned
    if (19 : ℚ)/20 < simScore norm last_hash then ⟨none, last_hash, false⟩
    else
      match tr cleaned with
      | none => ⟨none, last_hash, true⟩
      | some res =>
        if res.text = "" then ⟨none, last_hash, true⟩
        else if hasRussianLetter res.text then
          ⟨some ⟨res.name, res.gender, res.text⟩, norm, true⟩
        else ⟨none, last_hash, true⟩

/-! ### LatestQueue (`src/ai_engine.py`, lines 127–141)

`queue.Queue` state is its list of items, oldest first; `maxsize = 1` for
`LatestQueue`.  `put(block=False)` raises `Full` when `0 < maxsize ≤ len`;
`get_nowait` raises `Empty` on an empty queue.  Exceptions are modelled as
`none`. -/

structure PyQueue (α : Type) where
  items : List α
  maxsize : Nat
deriving DecidableEq, Repr

/-- Model of `Queue.put(x, block=False)`; `none` models the `Full` exception. -/
def putNowait {α : Type} (q : PyQueue α) (x : α) : Option (PyQueue α) :=
  if 0 < q.maxsize ∧ q.maxsize ≤ q.items.length then none
  else some ⟨q.items ++ [x], q.maxsize⟩

/-- Model of `Queue.get_nowait()`; `none` models the `Empty` exception. -/
def getNowait {α : Type} (q : PyQueue α) : Option (α × PyQueue α) :=
  match q.items with
  | [] => none
  | x :: rest => some (x, ⟨rest, q.maxsize⟩)

/-- Model of `LatestQueue.put_latest(item)`: try a non-blocking put; on `Full`,
discard one item (ignoring `Empty`) and put again.  The second put is
unguarded in the source; it cannot raise for `maxsize = 1`
(`putLatest_eq`), and the fallback arm returning `q1` is unreachable
there. -/
def putLatest {α : Type} (q : PyQueue α) (x : α) : PyQueue α :=
  match putNowait q x with
  | some q' => q'
  | none =>
    let q1 := match getNowait q with
      | some r => r.2
      | none => q
    match putNowait q1 x with
    | some q' => q'
    | none => q1

/-- A sequence of `put_latest` calls. -/
def putMany {α : Type} (q : PyQueue α) (xs : List α) : PyQueue α :=
  xs.foldl putLatest q

/-- An interleaving step: either a producer `put_latest` or a consumer
`get` (which leaves the queue unchanged on `Empty`). -/
inductive QOp (α : Type) where
  | put (x : α)
  | get
deriving DecidableEq, Repr

def qStep {α : Type} (q : PyQueue α) : QOp α → PyQueue α
  | .put x => putLatest q x
  | .get =>
    match getNowait q with
    | some r => r.2
    | none => q

def qRun {α : Type} (q : PyQueue α) (ops : List (QOp α)) : PyQueue α :=
  ops.foldl qStep q

/-! ### ChangeGate (`src/ai_engine.py`, `AIEngine._capture_loop`, lines 185–208)

`cv2.resize`/`cv2.cvtColor` are opaque externals, abstracted as `grayOf`;
the downsampled grayscale image is a list of pixel values, and
`np.mean(cv2.absdiff(gray, prev))` is the mean absolute difference. -/

/-- Model of `float(np.mean(cv2.absdiff(xs, ys)))` for same-shape images. -/
def meanAbsDiff (xs ys : List ℚ) : ℚ :=
  let ds := List.zipWith (fun x y => |x - y|) xs ys
  (ds.foldr (· + ·) 0) / ds.length

/-- One gate decision of `_capture_loop` for a captured frame: the result
is the new baseline (`prev_small`) and whether the frame is forwarded to
`frame_queue`. -/
def gateStep {F : Type} (grayOf : F → List ℚ) (thr : ℚ)
    (prev : Option (List ℚ)) (frame : F) : Option (List ℚ) × Bool :=
  let gray := grayOf frame
  match prev with
  | none => (some gray, true)
  | some p =>
    if meanAbsDiff gray p < thr then (some p, false)
    else (some gray, true)

/-- The gate over a stream of frames, collecting the forwarded ones. -/
def gateRun {F : Type} (grayOf : F → List ℚ) (thr : ℚ)
    (prev : Option (List ℚ)) (frames : List F) :
    Option (List ℚ) × List F :=
  frames.foldl
    (fun acc f =>
      let r := gateStep grayOf thr acc.1 f
      (r.1, acc.2 ++ (if r.2 then [f] else [])))
    (prev, [])

/-! ### AudioPlayer.speak (`src/audio.py`, lines 25–59)

The Silero model and `sounddevice` are opaque externals: `tts text speaker`
returns the synthesized sample count (`none` models an exception in the
`try` block), `choose` models `random.choice`.  `played` records whether
control reached `sd.play`. -/

/-- The regex test `re.search(r'[а-яА-ЯёЁ]', text)` as a predicate. -/
def hasCyrillicChar (s : String) : Bool :=
  s.data.any fun ch =>
    (decide (0x430 ≤ ch.toNat) && decide (ch.toNat ≤ 0x44F)) ||
    (decide (0x410 ≤ ch.toNat) && decide (ch.toNat ≤ 0x42F)) ||
    ch == 'ё' || ch == 'Ё'

/-- Model of `self.speakers` of `AudioPlayer` with its `.get` fallback to the male pool. -/
def speakersPool (gender : String) : List String :=
  if gender = "m" then ["aidar", "eugene"]
  else if gender = "f" then ["kseniya", "xenia", "baya"]
  else ["aidar", "eugene"]

/-- Association-list lookup modelling Python `dict.get`. -/
def lookupAssoc (m : List (String × String)) (k : String) : Option String :=
  (m.find? (fun p => p.1 == k)).map Prod.snd

structure SpeakOut where
  duration : ℚ
  speakerName : String
  ttsCalled : Bool
  played : Bool
  char_map : List (String × String)
deriving DecidableEq, Repr

/-- Model of `AudioPlayer.speak(text, name, gender)`: empty text and text without a
Cyrillic letter return duration `0.0` without synthesis; otherwise a voice
is assigned (once per character name), audio is synthesized
(`ttsCalled`) and played (`played`, the `sd.play` call), and
`len(audio) / 48000` is returned; a synthesis exception yields
`(0.0, "Error")` with nothing played. -/
def audioSpeak (tts : String → String → Option Nat)
    (choose : List String → String) (cm : List (String × String))
    (text name gender : String) : SpeakOut :=
  if text = "" then ⟨0, "None", false, false, cm⟩
  else if ¬ hasCyrillicChar text then ⟨0, "Skipped (No RU)", false, false, cm⟩
  else
    let cm' :=
      if name ≠ "" ∧ lookupAssoc cm name = none then
        cm ++ [(name, choose (speakersPool (pyLower gender)))]
      else cm
    let speaker := (lookupAssoc cm' name).getD "aidar"
    match tts text speaker with
    | some samples => ⟨(samples : ℚ) / 48000, speaker, true, true, cm'⟩
    | none => ⟨0, "Error", true, false, cm'⟩

/-! ### The dispatch block of MainApp.run_engine (`start.py`, lines 161–218)

The block runs once per stabilized phrase `stable_text` in the engine
thread.  `spDur` abstracts `audio.speak`'s returned duration, `tr` the CT2
call inside `ai.translate`, `now` the wall clock at the end of the block.
The emitted `Event` trace records, in program order, the externally
visible calls: `audio.stop()`, `ai.abort()`, the `ai.translate` call, the
subtitle signal, and `audio.speak`.  (The log-string construction is
omitted: it only formats the values already present here.) -/

inductive Event where
  | stop
  | abort
  | translateCall (text : String)
  | subtitle (name text : String)
  | speak (text name gender : String)
deriving DecidableEq, Repr

structure EngineState where
  last_stable_text : String
  last_hash : String
  last_audio_finish_time : ℚ
deriving DecidableEq, Repr

/-- The `if stable_text:` body of `run_engine`: a phrase scoring below
0.85 against `last_stable_text` preempts the previous dispatch
(`audio.stop()`, `ai.abort()`) and is translated and spoken; anything else
is suppressed with no action. -/
def dispatchCycle (translateMode : Bool) (tr : String → Option TranslationResult)
    (spDur : String → ℚ) (now : ℚ) (st : EngineState) (stable_text : String) :
    EngineState × List Event :=
  if simScore stable_text st.last_stable_text < (17 : ℚ)/20 then
    -- audio.stop(); ai.abort()  — then translate and speak
    if translateMode then
      let out := aiTranslate tr st.last_hash stable_text
      match out.result with
      | some r =>
        if r.text ≠ "" then
          (⟨stable_text, out.last_hash, now + spDur r.text⟩,
            [.stop, .abort, .translateCall stable_text,
              .subtitle r.name r.text, .speak r.text r.name r.gender])
        else
          (⟨stable_text, out.last_hash, now⟩,
            [.stop, .abort, .translateCall stable_text])
      | none =>
        (⟨stable_text, out.last_hash, now⟩,
          [.stop, .abort, .translateCall stable_text])
    else
      (⟨stable_text, st.last_hash, now + spDur stable_text⟩,
        [.stop, .abort, .subtitle "" stable_text, .speak stable_text "" "m"])
  else (st, [])

/-! ## Helper lemmas and fixed external collaborators used in witnesses -/

attribute [local semireducible] Rat.mul Rat.inv Rat.add

/-- A translator stub that always yields a fixed valid Russian result. -/
def trRu : String → Option TranslationResult := fun _ => some ⟨"", "m", "привет"⟩

/-- A translator stub that always fails (models `CT2Translator.translate`
returning `None`). -/
def trNone : String → Option TranslationResult := fun _ => none

/-- A `random.choice` stub: pick the first voice of the pool. -/
def chooseFirst : List String → String := fun l => l.getD 0 "aidar"

/-- A TTS stub synthesizing two seconds of audio. -/
def ttsTwoSec : String → String → Option Nat := fun _ _ => some 96000

theorem putLatest_eq {α : Type} (q : PyQueue α) (x : α) (hms : q.maxsize = 1)
    (hlen : q.items.length ≤ 1) : putLatest q x = ⟨[x], 1⟩ := by
  obtain ⟨items, ms⟩ := q
  subst hms
  match items, hlen with
  | [], _ => rfl
  | [a], _ => rfl

theorem putMany_inv {α : Type} (xs : List α) (q : PyQueue α) (hms : q.maxsize = 1)
    (hlen : q.items.length ≤ 1) :
    (putMany q xs).maxsize = 1 ∧ (putMany q xs).items.length ≤ 1 := by
  induction xs generalizing q with
  | nil => exact ⟨hms, hlen⟩
  | cons x xs ih =>
    have h : putMany q (x :: xs) = putMany (putLatest q x) xs := rfl
    rw [h, putLatest_eq q x hms hlen]
    exact ih _ rfl (by simp)

theorem qStep_inv {α : Type} (q : PyQueue α) (op : QOp α) (hms : q.maxsize = 1)
    (hlen : q.items.length ≤ 1) :
    (qStep q op).maxsize = 1 ∧ (qStep q op).items.length ≤ 1 := by
  cases op with
  | put x => rw [show qStep q (QOp.put x) = putLatest q x from rfl, putLatest_eq q x hms hlen]; simp
  | get =>
    obtain ⟨items, ms⟩ := q
    subst hms
    cases items with
    | nil => exact ⟨rfl, by simp [qStep, getNowait]⟩
    | cons a t =>
      refine ⟨rfl, ?_⟩
      simp only [qStep, getNowait]
      simp at hlen
      simp [hlen]

/-! ## Claims -/

/-- Claim C4: for the single-slot queue, after any sequence of `put_latest`
calls with no intervening `get`, the queue holds exactly the most recently
put value, a subsequent `get` returns only that value, and all earlier put
values are unrecoverable (they are no longer in the queue's state). -/
theorem latestQueue_overwrite {α : Type} (q : PyQueue α) (xs : List α) (x : α)
    (hms : q.maxsize = 1) (hlen : q.items.length ≤ 1) :
    putMany q (xs ++ [x]) = ⟨[x], 1⟩ ∧
    getNowait (putMany q (xs ++ [x])) = some (x, ⟨[], 1⟩) := by
  have hinv := putMany_inv xs q hms hlen
  have hlast : putMany q (xs ++ [x]) = putLatest (putMany q xs) x := by
    simp [putMany, List.foldl_append]
  rw [hlast, putLatest_eq _ x hinv.1 hinv.2]
  exact ⟨rfl, rfl⟩

/-- Witness for C4: starting from a queue holding `0`, putting `1, 2, 3`
leaves only `3`, and `get` returns `3`. -/
theorem latestQueue_overwrite_witness :
    putMany (⟨[0], 1⟩ : PyQueue Nat) ([1, 2] ++ [3]) = ⟨[3], 1⟩ ∧
    getNowait (putMany (⟨[0], 1⟩ : PyQueue Nat) ([1, 2] ++ [3])) = some (3, ⟨[], 1⟩) :=
  latestQueue_overwrite ⟨[0], 1⟩ [1, 2] 3 rfl (by decide)

/-- Claim C8: for any interleaving of `put_latest` and `get` operations
starting from the empty single-slot queue, the queue's occupancy never
exceeds one item. -/
theorem latestQueue_bounded {α : Type} (ops : List (QOp α)) :
    (qRun (⟨[], 1⟩ : PyQueue α) ops).items.length ≤ 1 := by
  suffices h : ∀ q : PyQueue α, q.maxsize = 1 → q.items.length ≤ 1 →
      (qRun q ops).maxsize = 1 ∧ (qRun q ops).items.length ≤ 1 from
    (h ⟨[], 1⟩ rfl (by simp)).2
  induction ops with
  | nil => exact fun q hms hlen => ⟨hms, hlen⟩
  | cons op ops ih =>
    intro q hms hlen
    have h := qStep_inv q op hms hlen
    exact ih (qStep q op) h.1 h.2

/-- Claim C2: `TextStabilizer.push` returns "not stable" when the trimmed
text is empty or shorter than 2 characters, or when the window (after the
append) is not yet full; with a full window it returns the most recent
entry as a stable phrase if and only if that entry's similarity to every
window entry meets or exceeds the threshold. -/
theorem tsPush_characterization (st : TextStabilizer) (text : String)
    (hmax : 1 ≤ st.maxlen) :
    ((pyStrip text).length < 2 → (tsPush st text).2 = none) ∧
    (2 ≤ (pyStrip text).length →
      (dequeAppend st.maxlen st.queue (pyStrip text)).length < st.maxlen →
      (tsPush st text).2 = none) ∧
    (2 ≤ (pyStrip text).length →
      st.maxlen ≤ (dequeAppend st.maxlen st.queue (pyStrip text)).length →
      ∀ p, ((tsPush st text).2 = some p ↔
        (dequeAppend st.maxlen st.queue (pyStrip text)).getLast? = some p ∧
        ∀ item ∈ dequeAppend st.maxlen st.queue (pyStrip text),
          st.threshold ≤ simScore p item)) := by
  refine ⟨fun hshort => ?_, fun hlong hnotfull => ?_, fun hlong hfull p => ?_⟩
  · simp [tsPush, hshort]
  · simp [tsPush, Nat.not_lt.2 hlong, hnotfull]
  · have hnl : ¬ (pyStrip text).length < 2 := Nat.not_lt.2 hlong
    have hnf : ¬ (dequeAppend st.maxlen st.queue (pyStrip text)).length < st.maxlen :=
      Nat.not_lt.2 hfull
    simp only [tsPush, hnl, if_false, hnf]
    cases hlast : (dequeAppend st.maxlen st.queue (pyStrip text)).getLast? with
    | none => simp [hlast]
    | some last =>
      simp only [hlast]
      by_cases hall : ∀ item ∈ dequeAppend st.maxlen st.queue (pyStrip text),
          st.threshold ≤ simScore last item
      · have : (dequeAppend st.maxlen st.queue (pyStrip text)).all
            (fun item => decide (st.threshold ≤ simScore last item)) = true := by
          simpa [List.all_eq_true] using hall
        simp only [this, if_true]
        constructor
        · rintro h
          cases h
          exact ⟨rfl, hall⟩
        · rintro ⟨h1, _⟩
          cases h1
          rfl
      · have : ¬ ((dequeAppend st.maxlen st.queue (pyStrip text)).all
            (fun item => decide (st.threshold ≤ simScore last item)) = true) := by
          simpa [List.all_eq_true] using hall
        simp only [this, if_false]
        constructor
        · rintro h
          cases h
        · rintro ⟨h1, h2⟩
          cases h1
          exact absurd h2 hall

/-- Witness for C2, exercising the stable branch at the spec's own window
example: after `"Hello world", "Hello world"`, pushing `"Hallo world"`
(similarity 10/11 ≥ 17/20 to both) emits `"Hallo world"`. -/
theorem tsPush_characterization_witness :
    (tsPush ⟨["Hello world", "Hello world"], 3, (17 : ℚ)/20⟩ "Hallo world").2 =
      some "Hallo world" := by
  have h := (tsPush_characterization ⟨["Hello world", "Hello world"], 3, (17 : ℚ)/20⟩
    "Hallo world" (by decide)).2.2 (by decide) (by decide) "Hallo world"
  exact h.2 (by decide)

/-- Counterexample to claim C3: pushing the same text `"hi"` four times
into a fresh stabilizer (window 3, threshold 17/20) emits a stable phrase
twice — once at the third push and again at the fourth — not exactly
once.  The window is a rolling filter and never resets after emitting. -/
theorem stabilizer_reemission_counterexample :
    (tsPushMany ⟨[], 3, (17 : ℚ)/20⟩ (List.replicate 4 "hi")).2 = ["hi", "hi"] ∧
    ¬ ((tsPushMany ⟨[], 3, (17 : ℚ)/20⟩ (List.replicate 4 "hi")).2.length = 1) := by
  exact ⟨by decide, by decide⟩

theorem tsPushMany_acc (xs : List String) (st : TextStabilizer) (acc : List String) :
    xs.foldl (fun a t => ((tsPush a.1 t).1, a.2 ++ emitted (tsPush a.1 t).2)) (st, acc) =
      ((tsPushMany st xs).1, acc ++ (tsPushMany st xs).2) := by
  induction xs generalizing st acc with
  | nil => simp [tsPushMany]
  | cons x xs ih =>
    simp only [tsPushMany, List.foldl_cons, List.nil_append]
    rw [ih ((tsPush st x).1) (acc ++ emitted (tsPush st x).2),
      ih ((tsPush st x).1) (emitted (tsPush st x).2)]
    simp

theorem tsPushMany_snoc (st : TextStabilizer) (xs : List String) (x : String) :
    tsPushMany st (xs ++ [x]) =
      ((tsPush (tsPushMany st xs).1 x).1,
        (tsPushMany st xs).2 ++ emitted (tsPush (tsPushMany st xs).1 x).2) := by
  simp only [tsPushMany, List.foldl_append, List.foldl_cons, List.foldl_nil]

theorem tsPushMany_hi (k : Nat) (h : 3 ≤ k) :
    tsPushMany ⟨[], 3, (17 : ℚ)/20⟩ (List.replicate k "hi") =
      (⟨["hi", "hi", "hi"], 3, (17 : ℚ)/20⟩, List.replicate (k - 2) "hi") := by
  induction k, h using Nat.le_induction with
  | base => decide
  | succ k hk ih =>
    rw [List.replicate_succ' (n := k), tsPushMany_snoc, ih]
    have hstep : tsPush ⟨["hi", "hi", "hi"], 3, (17 : ℚ)/20⟩ "hi" =
        (⟨["hi", "hi", "hi"], 3, (17 : ℚ)/20⟩, some "hi") := by decide
    rw [hstep]
    have harith : k + 1 - 2 = (k - 2) + 1 := by omega
    simp [emitted, harith, List.replicate_succ' (n := k - 2)]

/-- Claim C3 as amended: feeding the same text to a fresh stabilizer
(window N = 3, threshold 17/20) k ≥ 3 times in a row yields one stable
emission per push from the third push onward — `k - 2` emissions in
total, not exactly one.  Exactly-once dispatch is instead enforced
downstream by the deduplication against the last-dispatched text. -/
theorem stabilizer_reemission_amended (k : Nat) (h : 3 ≤ k) :
    (tsPushMany ⟨[], 3, (17 : ℚ)/20⟩ (List.replicate k "hi")).2.length = k - 2 := by
  rw [tsPushMany_hi k h]
  simp

/-- Witness for the amended C3 at `k = 5`: three emissions. -/
theorem stabilizer_reemission_amended_witness :
    (tsPushMany ⟨[], 3, (17 : ℚ)/20⟩ (List.replicate 5 "hi")).2.length = 5 - 2 :=
  stabilizer_reemission_amended 5 (by decide)

/-- Counterexample to claim C1: the code suppresses only when similarity
is strictly greater than 0.95.  With last-dispatched text
`"abcdefghijklmnopqrsu"`, the candidate `"abcdefghijklmnopqrst"` scores
exactly 19/20 = 0.95 (19 matched characters, total length 40) — at least
the threshold — yet `AIEngine.translate` is not suppressed: the translator
is called and a result is dispatched. -/
theorem dedup_boundary_counterexample :
    (19 : ℚ)/20 ≤ simScore (pyLower (pyStrip "abcdefghijklmnopqrst")) "abcdefghijklmnopqrsu" ∧
    (aiTranslate trRu "abcdefghijklmnopqrsu" "abcdefghijklmnopqrst").translatorCalled = true ∧
    (aiTranslate trRu "abcdefghijklmnopqrsu" "abcdefghijklmnopqrst").result ≠ none := by
  exact ⟨by decide, by decide, by decide⟩

/-- Claim C1 as amended: a candidate whose similarity to the
last-dispatched text is strictly greater than 0.95 is suppressed — no
translator call, result `None`, dedup state unchanged; a candidate
scoring at most 0.95 is forwarded to translation, and becomes the new
last-dispatched text exactly when translation returns a valid result. -/
theorem dedup_threshold_amended (tr : String → Option TranslationResult)
    (lh text : String) (hlen : 2 ≤ (pyStrip text).length) :
    ((19 : ℚ)/20 < simScore (pyLower (pyStrip text)) lh →
      aiTranslate tr lh text = ⟨none, lh, false⟩) ∧
    (simScore (pyLower (pyStrip text)) lh ≤ (19 : ℚ)/20 →
      (aiTranslate tr lh text).translatorCalled = true ∧
      (∀ r, (aiTranslate tr lh text).result = some r →
        (aiTranslate tr lh text).last_hash = pyLower (pyStrip text))) := by
  have hnl : ¬ (pyStrip text).length < 2 := Nat.not_lt.2 hlen
  constructor
  · intro hdup
    simp [aiTranslate, hnl, hdup]
  · intro hkeep
    have hnd : ¬ (19 : ℚ)/20 < simScore (pyLower (pyStrip text)) lh := not_lt.2 hkeep
    simp only [aiTranslate, hnl, if_false, hnd]
    cases htr : tr (pyStrip text) with
    | none => simp
    | some res =>
      by_cases hempty : res.text = "" <;>
        by_cases hru : hasRussianLetter res.text <;>
          simp [hempty, hru]

/-- Witness for the amended C1: candidate `"ab"` scores 0 against
last-dispatched `"zzzzz"`, so the translator is called. -/
theorem dedup_threshold_amended_witness :
    (aiTranslate trRu "zzzzz" "ab").translatorCalled = true :=
  ((dedup_threshold_amended trRu "zzzzz" "ab" (by decide)).2 (by decide)).1

/-- Claim C10: whenever `AIEngine.translate` returns `None` — short input,
near-duplicate of the last-dispatched text, failed or empty translation,
or failed Russian-letter validation — the stored `last_hash` is left
unchanged; it is updated (to the lowercased trimmed input) exactly when a
valid translation result is returned. -/
theorem translate_lastHash_stable (tr : String → Option TranslationResult)
    (lh text : String) :
    ((aiTranslate tr lh text).result = none →
      (aiTranslate tr lh text).last_hash = lh) ∧
    (∀ r, (aiTranslate tr lh text).result = some r →
      (aiTranslate tr lh text).last_hash = pyLower (pyStrip text)) := by
  by_cases hshort : (pyStrip text).length < 2
  · simp [aiTranslate, hshort]
  · by_cases hdup : (19 : ℚ)/20 < simScore (pyLower (pyStrip text)) lh
    · simp [aiTranslate, hshort, hdup]
    · simp only [aiTranslate, hshort, if_false, hdup]
      cases htr : tr (pyStrip text) with
      | none => simp
      | some res =>
        by_cases hempty : res.text = ""
        · simp [hempty]
        · by_cases hru : hasRussianLetter res.text
          · simp [hempty, hru]
          · simp [hempty, hru]

/-- Witness for C10: a one-character input is rejected and `last_hash`
stays `"abc"`. -/
theorem translate_lastHash_stable_witness :
    (aiTranslate trRu "abc" "x").last_hash = "abc" :=
  (translate_lastHash_stable trRu "abc" "x").1 (by decide)

/-- Claim C6: the very first frame entering the change gate always passes
(and installs its downsampled grayscale as baseline); afterwards a frame
whose mean absolute difference to the baseline is below the threshold is
discarded with the baseline unchanged, and any other frame becomes the
new baseline and is forwarded. -/
theorem changeGate_spec {F : Type} (grayOf : F → List ℚ) (thr : ℚ) (f : F) :
    (gateStep grayOf thr none f = (some (grayOf f), true)) ∧
    (∀ p, meanAbsDiff (grayOf f) p < thr →
      gateStep grayOf thr (some p) f = (some p, false)) ∧
    (∀ p, ¬ meanAbsDiff (grayOf f) p < thr →
      gateStep grayOf thr (some p) f = (some (grayOf f), true)) := by
  refine ⟨rfl, fun p hlt => ?_, fun p hge => ?_⟩
  · simp [gateStep, hlt]
  · simp [gateStep, hge]

/-- Witness for C6: an unchanged all-zero frame (difference 0 below
threshold 1) is discarded with the baseline kept. -/
theorem changeGate_spec_witness :
    gateStep (fun _ : Unit => [(0 : ℚ)]) 1 (some [0]) () = (some [0], false) := by
  have h := (changeGate_spec (fun _ : Unit => [(0 : ℚ)]) 1 ()).2.1 [0]
  apply h
  simp [meanAbsDiff]

/-- Claim C9: `AudioPlayer.speak` returns duration `0.0` and plays nothing
whenever the text is empty or contains no Cyrillic letter; only a text
containing at least one Cyrillic letter is synthesized and played. -/
theorem audioSpeak_cyrillic_only (tts : String → String → Option Nat)
    (choose : List String → String) (cm : List (String × String))
    (text name gender : String) :
    ((text = "" ∨ hasCyrillicChar text = false) →
      (audioSpeak tts choose cm text name gender).duration = 0 ∧
      (audioSpeak tts choose cm text name gender).ttsCalled = false ∧
      (audioSpeak tts choose cm text name gender).played = false) ∧
    ((audioSpeak tts choose cm text name gender).ttsCalled = true →
      hasCyrillicChar text = true) ∧
    ((audioSpeak tts choose cm text name gender).played = true →
      hasCyrillicChar text = true) := by
  by_cases hempty : text = ""
  · refine ⟨fun _ => ?_, ?_, ?_⟩ <;> simp [audioSpeak, hempty]
  · by_cases hcyr : hasCyrillicChar text
    · refine ⟨fun hcase => ?_, fun _ => hcyr, fun _ => hcyr⟩
      rcases hcase with h | h
      · exact absurd h hempty
      · rw [hcyr] at h; cases h
    · have hnc : ¬ hasCyrillicChar text = true := hcyr
      refine ⟨fun _ => ?_, fun h => ?_, fun h => ?_⟩ <;>
        simp [audioSpeak, hempty, hnc] at *

/-- Witness for C9: English-only text is skipped with duration 0 and
nothing synthesized or played. -/
theorem audioSpeak_cyrillic_only_witness :
    (audioSpeak ttsTwoSec chooseFirst [] "hello" "Bob" "m").duration = 0 ∧
    (audioSpeak ttsTwoSec chooseFirst [] "hello" "Bob" "m").ttsCalled = false ∧
    (audioSpeak ttsTwoSec chooseFirst [] "hello" "Bob" "m").played = false :=
  (audioSpeak_cyrillic_only ttsTwoSec chooseFirst [] "hello" "Bob" "m").1
    (Or.inr (by decide))

/-- Claim C5: when a newly stabilized phrase sufficiently different from
the last dispatched one arrives (score < 0.85) with translation enabled,
the dispatch block calls `audio.stop()` and `ai.abort()` strictly before
the new `ai.translate` call, and every `speak` event of the cycle speaks
the new phrase's own translation — never a result of the preempted
phrase. -/
theorem preemption_order (tr : String → Option TranslationResult)
    (spDur : String → ℚ) (now : ℚ) (st : EngineState) (stable : String)
    (hacc : simScore stable st.last_stable_text < (17 : ℚ)/20) :
    ∃ rest, (dispatchCycle true tr spDur now st stable).2 =
        Event.stop :: Event.abort :: Event.translateCall stable :: rest ∧
      (∀ t n g, Event.speak t n g ∈ (dispatchCycle true tr spDur now st stable).2 →
        ∃ r, (aiTranslate tr st.last_hash stable).result = some r ∧ t = r.text) := by
  simp only [dispatchCycle, hacc, if_true]
  cases hres : (aiTranslate tr st.last_hash stable).result with
  | none =>
    refine ⟨[], rfl, fun t n g hmem => ?_⟩
    simp at hmem
  | some r =>
    by_cases hempty : r.text ≠ ""
    · refine ⟨[Event.subtitle r.name r.text, Event.speak r.text r.name r.gender],
        by simp [hempty], fun t n g hmem => ?_⟩
      simp [hempty] at hmem
      exact ⟨r, rfl, hmem.1⟩
    · refine ⟨[], by simp [hempty], fun t n g hmem => ?_⟩
      simp [hempty] at hmem

/-- Witness for C5: a first phrase `"hello"` against empty state (score 0)
produces the trace stop, abort, translate, subtitle, speak, and the only
speak event carries the translation of `"hello"`. -/
theorem preemption_order_witness :
    ∃ rest, (dispatchCycle true trRu (fun _ => 1) 0 ⟨"", "", 0⟩ "hello").2 =
        Event.stop :: Event.abort :: Event.translateCall "hello" :: rest ∧
      (∀ t n g, Event.speak t n g ∈ (dispatchCycle true trRu (fun _ => 1) 0 ⟨"", "", 0⟩ "hello").2 →
        ∃ r, (aiTranslate trRu "" "hello").result = some r ∧ t = r.text) :=
  preemption_order trRu (fun _ => 1) 0 ⟨"", "", 0⟩ "hello" (by decide)

/-- Claim C7: in a dispatch cycle whose translation yields no valid result
(`ai.translate` returns `None` — covering failed, empty and suppressed
translations; the code has no separate "cancelled" status since
`AIEngine.abort` is a no-op), nothing is spoken, the translate call is
made exactly once (no retry), and the cycle completes normally with the
phrase recorded so the loop proceeds to the next item. -/
theorem failed_translation_silent (tr : String → Option TranslationResult)
    (spDur : String → ℚ) (now : ℚ) (st : EngineState) (stable : String)
    (hacc : simScore stable st.last_stable_text < (17 : ℚ)/20)
    (hnone : (aiTranslate tr st.last_hash stable).result = none) :
    (dispatchCycle true tr spDur now st stable).2 =
      [Event.stop, Event.abort, Event.translateCall stable] ∧
    (dispatchCycle true tr spDur now st stable).1.last_stable_text = stable := by
  simp [dispatchCycle, hacc, hnone]

/-- Witness for C7: a failing translator on phrase `"hello"` yields the
trace stop, abort, translate with nothing spoken, and the phrase is
recorded as the last stable text. -/
theorem failed_translation_silent_witness :
    (dispatchCycle true trNone (fun _ => 1) 0 ⟨"", "", 0⟩ "hello").2 =
      [Event.stop, Event.abort, Event.translateCall "hello"] ∧
    (dispatchCycle true trNone (fun _ => 1) 0 ⟨"", "", 0⟩ "hello").1.last_stable_text = "hello" :=
  failed_translation_silent trNone (fun _ => 1) 0 ⟨"", "", 0⟩ "hello" (by decide) (by decide)

end GameTranslate
